import Mathlib

/-!
Verification development for the JobSwipe deck application (src/src/App.tsx).

The application is a React component holding its state in `useState` hooks.
We embed it as an explicit state machine:

* `Job`, `SearchCriteria` mirror the interfaces at App.tsx lines 7-18 and 34-38.
* `DUMMY_JOBS`, `INITIAL_CRITERIA` mirror the constants at lines 40-109 and 125-130.
* `AppState` gathers the deck-relevant `useState` fields (lines 159-168); the
  booleans that only select which view is rendered are omitted, and of the
  profile only `jobPreferences.remoteOnly` is kept, the single preference the
  filter reads (line 201).
* JavaScript timers (`setTimeout` at line 229) are modelled by an explicit FIFO
  queue `pendingTimers`; each entry records the `filteredJobs` list captured by
  the scheduled closure.  `fireTimer` executes the earliest pending callback.
* Operations (`handleSwipe`, `handleDragEnd`, `toggleCriteria`,
  `handleRemoveSaved`, search/preference setters) are translated one-to-one
  from the source; the reactive `useEffect` at lines 190-208 that recomputes
  `filteredJobs` and resets the index is modelled by `recompute`, invoked by
  every mutator of its dependencies (`criteria`, `searchTerm`,
  `profile.jobPreferences`), exactly when React would re-run the effect.
* A JavaScript runtime fault (indexing `undefined`) is modelled by `Option`:
  an operation returns `none` where the source would throw.
-/

/-- One job posting record; the `Job` interface at App.tsx lines 7-18. -/
structure Job where
  id : Nat
  title : String
  company : String
  location : String
  type : String
  salary : String
  description : String
  requirements : List String
  imageUrl : String
  postedDate : String
deriving DecidableEq

/-- One filter criterion; the `SearchCriteria` interface at App.tsx lines 34-38. -/
structure SearchCriteria where
  id : String
  label : String
  active : Bool
deriving DecidableEq

/-- First entry of `DUMMY_JOBS` (App.tsx lines 41-57). -/
def job1 : Job :=
  { id := 1
    title := "Senior Frontend Developer"
    company := "TechCorp Inc."
    location := "San Francisco, CA"
    type := "Permanent"
    salary := "$120,000 - $180,000"
    description := "Looking for an experienced frontend developer with React expertise to join our dynamic team."
    requirements := ["5+ years of React experience", "Strong TypeScript skills",
      "Experience with modern CSS frameworks", "Understanding of web performance optimization"]
    imageUrl := "https://images.unsplash.com/photo-1497366216548-37526070297c?auto=format&fit=crop&w=800"
    postedDate := "2024-03-10" }

/-- Second entry of `DUMMY_JOBS` (App.tsx lines 58-74). -/
def job2 : Job :=
  { id := 2
    title := "UX Design Intern"
    company := "Design Studio"
    location := "Remote"
    type := "Internship"
    salary := "$30/hour"
    description := "Join our creative team to design beautiful and intuitive user experiences."
    requirements := ["Currently pursuing design degree", "Proficiency in Figma",
      "Strong portfolio", "Passion for user research"]
    imageUrl := "https://images.unsplash.com/photo-1454165804606-c3d57bc86b40?auto=format&fit=crop&w=800"
    postedDate := "2024-03-12" }

/-- Third entry of `DUMMY_JOBS` (App.tsx lines 75-91). -/
def job3 : Job :=
  { id := 3
    title := "Product Manager"
    company := "StartupX"
    location := "New York, NY"
    type := "Fixed-term"
    salary := "$130,000 - $160,000"
    description := "Lead product development and strategy for our growing startup."
    requirements := ["5+ years of product management", "Experience in B2B SaaS",
      "Strong analytical skills", "Excellent communication"]
    imageUrl := "https://images.unsplash.com/photo-1552581234-26160f608093?auto=format&fit=crop&w=800"
    postedDate := "2024-03-15" }

/-- Fourth entry of `DUMMY_JOBS` (App.tsx lines 92-108). -/
def job4 : Job :=
  { id := 4
    title := "DevOps Engineer"
    company := "CloudTech Solutions"
    location := "Remote"
    type := "Permanent"
    salary := "$140,000 - $190,000"
    description := "Join our infrastructure team to build and maintain scalable cloud solutions."
    requirements := ["Strong AWS experience", "Kubernetes expertise",
      "CI/CD pipeline management", "Infrastructure as Code"]
    imageUrl := "https://images.unsplash.com/photo-1551434678-e076c223a692?auto=format&fit=crop&w=800"
    postedDate := "2024-03-16" }

/-- The static listing data source `DUMMY_JOBS` (App.tsx lines 40-109). -/
def DUMMY_JOBS : List Job := [job1, job2, job3, job4]

/-- The constant `INITIAL_CRITERIA` (App.tsx lines 125-130). -/
def INITIAL_CRITERIA : List SearchCriteria :=
  [ { id := "permanent", label := "Permanent", active := true }
  , { id := "fixed-term", label := "Fixed-term", active := true }
  , { id := "temporary", label := "Temporary", active := true }
  , { id := "internship", label := "Internship", active := true } ]

/-- Checks whether the pattern is an initial segment of the text
(character-list level helper for `strIncludes`). -/
def strTakeMatch : List Char → List Char → Bool
  | [], _ => true
  | _ :: _, [] => false
  | c :: cs, d :: ds => c == d && strTakeMatch cs ds

/-- Checks whether `sub` occurs contiguously in `s`, at any position including
the end of the string. -/
def strIncludesL (sub : List Char) : List Char → Bool
  | [] => strTakeMatch sub []
  | c :: rest => strTakeMatch sub (c :: rest) || strIncludesL sub rest

/-- JavaScript `String.prototype.includes`: `s.includes(sub)` is true iff `sub`
is a contiguous substring of `s` (the empty string is a substring of every
string). -/
def strIncludes (s sub : String) : Bool := strIncludesL sub.data s.data

/-- JavaScript `String.prototype.toLowerCase`, restricted to the per-character
lowering that is exact on the ASCII data of this application. -/
def toLowerCase (s : String) : String := ⟨s.data.map Char.toLower⟩

/-- The list `activeCriteriaTypes` computed by the filter effect
(App.tsx lines 191-193): lower-cased labels of the active criteria. -/
def activeCriteriaTypes (criteria : List SearchCriteria) : List String :=
  (criteria.filter (fun c => c.active)).map (fun c => toLowerCase c.label)

/-- `matchesType` in the filter effect (App.tsx line 196): the job's kind,
lower-cased, is an element of the active-criteria label list. -/
def matchesType (activeTypes : List String) (job : Job) : Bool :=
  activeTypes.contains (toLowerCase job.type)

/-- `matchesSearch` in the filter effect (App.tsx lines 197-199): the search
term occurs case-insensitively in the title, company, or description. -/
def matchesSearch (searchTerm : String) (job : Job) : Bool :=
  strIncludes (toLowerCase job.title) (toLowerCase searchTerm)
    || strIncludes (toLowerCase job.company) (toLowerCase searchTerm)
    || strIncludes (toLowerCase job.description) (toLowerCase searchTerm)

/-- `matchesSalary` in the filter effect (App.tsx lines 200-201), the remote
filter: `job.salary.includes('Remote') ? true : remoteOnly ? false : true`.
Note that it inspects only the salary text, never `job.location`. -/
def matchesSalary (remoteOnly : Bool) (job : Job) : Bool :=
  if strIncludes job.salary "Remote" then true
  else if remoteOnly then false else true

/-- The filter pipeline of the effect at App.tsx lines 195-204, parameterised
by the job collection (the source applies it to `DUMMY_JOBS`). -/
def computeFiltered (jobs : List Job) (criteria : List SearchCriteria)
    (searchTerm : String) (remoteOnly : Bool) : List Job :=
  jobs.filter (fun job =>
    matchesType (activeCriteriaTypes criteria) job
      && matchesSearch searchTerm job
      && matchesSalary remoteOnly job)

/-- Swipe direction (`'left' | 'right'`, App.tsx line 222). -/
inductive Direction
  | left
  | right
deriving DecidableEq

/-- Transition marker values (`'swipe-left' | 'swipe-right'`, App.tsx line 160);
`animation : Option Animation` with `none` for the idle marker `null`. -/
inductive Animation
  | swipeLeft
  | swipeRight
deriving DecidableEq

/-- `direction === 'left' ? 'swipe-left' : 'swipe-right'` (App.tsx line 225). -/
def animationFor : Direction → Animation
  | .left => .swipeLeft
  | .right => .swipeRight

/-- The deck-relevant component state (App.tsx lines 159-168).  `savedJobs`
models the JavaScript `Set<number>` as its insertion-ordered duplicate-free
element list.  `pendingTimers` is the queue of not-yet-fired `setTimeout`
callbacks, each recording the `filteredJobs` list its closure captured. -/
structure AppState where
  currentJobIndex : Nat
  animation : Option Animation
  savedJobs : List Nat
  criteria : List SearchCriteria
  searchTerm : String
  remoteOnly : Bool
  filteredJobs : List Job
  pendingTimers : List (List Job)
deriving DecidableEq

/-- The `useState` initial values (App.tsx lines 159-168; `remoteOnly` from
`INITIAL_PROFILE.jobPreferences.remoteOnly`, line 121). -/
def initialState : AppState :=
  { currentJobIndex := 0
    animation := none
    savedJobs := []
    criteria := INITIAL_CRITERIA
    searchTerm := ""
    remoteOnly := false
    filteredJobs := DUMMY_JOBS
    pendingTimers := [] }

/-- The filter effect at App.tsx lines 190-208: recompute `filteredJobs` from
the current inputs and reset `currentJobIndex` to 0.  React runs this effect
whenever `criteria`, `searchTerm` or `profile.jobPreferences` changes, so each
mutator of those inputs invokes it. -/
def recompute (s : AppState) : AppState :=
  { s with
    filteredJobs := computeFiltered DUMMY_JOBS s.criteria s.searchTerm s.remoteOnly
    currentJobIndex := 0 }

/-- `toggleCriteria` (App.tsx lines 253-259) followed by the filter effect:
flip the `active` flag of the criterion with the given id.  `setCriteria`
always produces a fresh array, so the effect re-runs even if no flag changed. -/
def toggleCriteria (s : AppState) (id : String) : AppState :=
  recompute { s with
    criteria := s.criteria.map (fun c =>
      if c.id == id then { c with active := !c.active } else c) }

/-- `new Set([...prev, id])` (App.tsx line 227): JavaScript `Set` construction
keeps the first occurrence, so an already-present id leaves the set unchanged
and a new id is appended in insertion order. -/
def setAdd (l : List Nat) (x : Nat) : List Nat :=
  if l.contains x then l else l ++ [x]

/-- `handleSwipe` (App.tsx lines 222-233).  Empty deck: return unchanged
(line 223), scheduling nothing.  Otherwise set the transition marker, on a
right swipe insert `filteredJobs[currentJobIndex].id` into the saved set, and
schedule the phase-2 callback, whose closure captures the current
`filteredJobs`.  If `currentJobIndex` is out of bounds on a right swipe the
source dereferences `undefined` and throws: modelled as `none`. -/
def handleSwipe (s : AppState) (d : Direction) : Option AppState :=
  if s.filteredJobs.length = 0 then some s
  else
    match d with
    | .left =>
      some { s with
        animation := some .swipeLeft
        pendingTimers := s.pendingTimers ++ [s.filteredJobs] }
    | .right =>
      match s.filteredJobs[s.currentJobIndex]? with
      | none => none
      | some job =>
        some { s with
          animation := some .swipeRight
          savedJobs := setAdd s.savedJobs job.id
          pendingTimers := s.pendingTimers ++ [s.filteredJobs] }

/-- The `setTimeout` callback at App.tsx lines 229-232, executed for the
earliest pending timer: `setCurrentJobIndex(prev => (prev + 1) %
filteredJobs.length)` uses the *captured* `filteredJobs` of the scheduling
render for the modulus, but the *latest* index as `prev`; then the transition
marker is cleared.  With no pending timer nothing happens. -/
def fireTimer (s : AppState) : AppState :=
  match s.pendingTimers with
  | [] => s
  | captured :: rest =>
    { s with
      currentJobIndex := (s.currentJobIndex + 1) % captured.length
      animation := none
      pendingTimers := rest }

/-- `filteredJobs[currentJobIndex]` (App.tsx line 261): JavaScript indexing
out of range yields `undefined`, modelled as `none`. -/
def currentJob (s : AppState) : Option Job :=
  s.filteredJobs[s.currentJobIndex]?

/-- `handleRemoveSaved` (App.tsx lines 245-251): `Set.delete` on the saved-jobs
set, i.e. drop the entry for that id, nothing else. -/
def handleRemoveSaved (s : AppState) (id : Nat) : AppState :=
  { s with savedJobs := s.savedJobs.filter (fun x => x != id) }

/-- `setSearchTerm` from the settings input (App.tsx line 445) followed by the
filter effect.  React skips the update when the new value equals the old one,
so the effect (and the index reset) only runs on an actual change. -/
def setSearchTermOp (s : AppState) (t : String) : AppState :=
  if t == s.searchTerm then s else recompute { s with searchTerm := t }

/-- The remote-only checkbox handler (App.tsx lines 419-425) followed by the
filter effect: `setProfile` always builds a fresh `jobPreferences` object, so
the effect re-runs unconditionally. -/
def setRemoteOnlyOp (s : AppState) (b : Bool) : AppState :=
  recompute { s with remoteOnly := b }

/-- First-match index search, the semantics of JavaScript
`Array.prototype.findIndex` before its `-1` encoding. -/
def findIdxOpt (p : α → Bool) : List α → Option Nat
  | [] => none
  | x :: xs => if p x then some 0 else (findIdxOpt p xs).map (· + 1)

/-- JavaScript `Array.prototype.findIndex`: first matching index, `-1` if no
element matches (App.tsx lines 215-216). -/
def jsFindIndex (p : α → Bool) (l : List α) : Int :=
  match findIdxOpt p l with
  | some i => (i : Int)
  | none => -1

/-- The `arrayMove` helper of `@dnd-kit/sortable` imported at App.tsx line 4
and applied at line 217:
`newArray.splice(to < 0 ? newArray.length + to : to, 0, newArray.splice(from, 1)[0])`.
Argument evaluation is left to right, so the insertion position is computed
from the *original* length, the element is then removed at `from` (negative
`from` counts from the end), and insertion clamps to the shortened array.
`from` and `to` come from `findIndex`, hence lie in `{-1} ∪ [0, length)`; on
the one remaining corner (empty array, both indices `-1`) the source would
insert `undefined`, a value outside the element type, and we return the array
unchanged. -/
def arrayMove (l : List α) (fromI toI : Int) : List α :=
  let f : Nat := if fromI < 0 then ((l.length : Int) + fromI).toNat
    else min fromI.toNat l.length
  let t : Nat := if toI < 0 then ((l.length : Int) + toI).toNat else toI.toNat
  match l[f]? with
  | none => l
  | some x =>
    let rest := l.take f ++ l.drop (f + 1)
    rest.take t ++ x :: rest.drop t

/-- The criteria-list reordering performed by `handleDragEnd`
(App.tsx lines 210-220): when the dragged id differs from the drop-target id,
`arrayMove` the criterion from its `findIndex` position to the target's
`findIndex` position; otherwise leave the list untouched. -/
def dragEndCriteria (items : List SearchCriteria) (activeId overId : String) :
    List SearchCriteria :=
  if activeId ≠ overId then
    arrayMove items
      (jsFindIndex (fun c => c.id == activeId) items)
      (jsFindIndex (fun c => c.id == overId) items)
  else items

/-- `handleDragEnd` at the state level: a reorder calls `setCriteria`, so the
filter effect re-runs (recompute and index reset); with equal ids `setCriteria`
is not called and nothing happens. -/
def handleDragEnd (s : AppState) (activeId overId : String) : AppState :=
  if activeId ≠ overId then
    recompute { s with criteria := dragEndCriteria s.criteria activeId overId }
  else s

/-- One committed swipe: the gesture followed by its phase-2 timer, with
nothing interleaved. -/
def commitSwipe (d : Direction) (s : AppState) : Option AppState :=
  (handleSwipe s d).map fireTimer

/-- `n` consecutive committed swipes. -/
def commitSwipes (d : Direction) : Nat → AppState → Option AppState
  | 0, s => some s
  | n + 1, s => (commitSwipe d s).bind (commitSwipes d n)

/-! ## Supporting lemmas -/

theorem setAdd_self_mem (l : List Nat) (x : Nat) : x ∈ setAdd l x := by
  unfold setAdd
  split
  · next h => simpa using h
  · simp

theorem setAdd_mem_of_mem (l : List Nat) (x y : Nat) (h : y ∈ l) :
    y ∈ setAdd l x := by
  unfold setAdd
  split
  · exact h
  · simp [h]

theorem setAdd_eq_of_mem (l : List Nat) (x : Nat) (h : x ∈ l) : setAdd l x = l := by
  unfold setAdd
  rw [if_pos (by simpa using h)]

theorem setAdd_idem (l : List Nat) (x : Nat) : setAdd (setAdd l x) x = setAdd l x :=
  setAdd_eq_of_mem _ _ (setAdd_self_mem l x)

theorem setAdd_count (l : List Nat) (x : Nat) (h : l.count x ≤ 1) :
    (setAdd l x).count x = 1 := by
  unfold setAdd
  split
  · next hc =>
    have hm : x ∈ l := by simpa using hc
    have := List.count_pos_iff.mpr hm
    omega
  · next hc =>
    have hm : x ∉ l := by simpa using hc
    rw [List.count_append, List.count_eq_zero.mpr hm]
    simp

theorem fireTimer_cons (s : AppState) (F : List Job) (rest : List (List Job))
    (h : s.pendingTimers = F :: rest) :
    fireTimer s =
      { s with
        currentJobIndex := (s.currentJobIndex + 1) % F.length
        animation := none
        pendingTimers := rest } := by
  unfold fireTimer
  rw [h]

/-- Behaviour of `handleSwipe` on a state whose index is in bounds: the call
succeeds, phase-1 effects (transition marker, and on a right swipe the save)
apply synchronously, the cursor and the filter inputs are untouched, and one
phase-2 timer capturing the current `filteredJobs` is appended to the queue. -/
theorem handleSwipe_spec (s : AppState) (d : Direction)
    (h : s.currentJobIndex < s.filteredJobs.length) :
    ∃ s', handleSwipe s d = some s'
      ∧ s'.currentJobIndex = s.currentJobIndex
      ∧ s'.filteredJobs = s.filteredJobs
      ∧ s'.pendingTimers = s.pendingTimers ++ [s.filteredJobs]
      ∧ s'.animation = some (animationFor d)
      ∧ s'.criteria = s.criteria
      ∧ s'.searchTerm = s.searchTerm
      ∧ s'.remoteOnly = s.remoteOnly
      ∧ (∀ x, x ∈ s.savedJobs → x ∈ s'.savedJobs)
      ∧ (d = Direction.right → ∀ j, currentJob s = some j → j.id ∈ s'.savedJobs) := by
  have hne : ¬ s.filteredJobs.length = 0 := by omega
  cases d with
  | left =>
    refine ⟨{ s with
        animation := some Animation.swipeLeft
        pendingTimers := s.pendingTimers ++ [s.filteredJobs] },
      ?_, rfl, rfl, rfl, rfl, rfl, rfl, rfl, fun x hx => hx, ?_⟩
    · unfold handleSwipe
      rw [if_neg hne]
    · intro hlr
      exact absurd hlr (by simp)
  | right =>
    have hj : s.filteredJobs[s.currentJobIndex]? =
        some s.filteredJobs[s.currentJobIndex] := List.getElem?_eq_getElem h
    refine ⟨{ s with
        animation := some Animation.swipeRight
        savedJobs := setAdd s.savedJobs s.filteredJobs[s.currentJobIndex].id
        pendingTimers := s.pendingTimers ++ [s.filteredJobs] },
      ?_, rfl, rfl, rfl, rfl, rfl, rfl, rfl,
      fun x hx => setAdd_mem_of_mem _ _ _ hx, ?_⟩
    · unfold handleSwipe
      rw [if_neg hne]
      simp only [hj]
    · intro _ j hcur
      have : j = s.filteredJobs[s.currentJobIndex] := by
        have := hcur
        unfold currentJob at this
        rw [hj] at this
        exact (Option.some.injEq _ _).mp this.symm
      rw [this]
      exact setAdd_self_mem _ _

/-! ## Claim theorems -/

/-- C1: the claim asserts that the current index is always valid for the
current filtered sequence and that a swipe's pending deferred advance firing
after a filter recomputation is a no-op.  The code violates this: from the
initial state, swipe left (scheduling a phase-2 timer whose closure captures
the four-element sequence), then deactivate the `permanent`, `fixed-term` and
`temporary` criteria, so the filtered sequence becomes the single internship
listing and the index resets to 0; when the stale timer now fires it computes
`(0 + 1) % 4 = 1`, leaving index 1 on a length-1 sequence — out of bounds, and
`current()` yields no item even though the sequence is non-empty. -/
theorem stale_timer_breaks_index_invariant :
    ((handleSwipe initialState Direction.left).map (fun s =>
      fireTimer (toggleCriteria (toggleCriteria (toggleCriteria s "permanent")
        "fixed-term") "temporary"))).map
      (fun s => (s.filteredJobs.length, s.currentJobIndex, currentJob s))
    = some (1, 1, none) := by decide

/-- C2: the claim says a listing passes the remote filter (with the remote-only
preference on) iff its location or compensation text indicates a remote
arrangement.  The code inspects only the compensation text
(`job.salary.includes('Remote')`, App.tsx line 200): the internship listing
whose location is literally "Remote" but whose salary text is "$30/hour" is
rejected by `matchesSalary` and dropped from the filtered sequence as soon as
the preference is enabled, though it passes with the preference off. -/
theorem remote_filter_ignores_location :
    matchesSalary true job2 = false
    ∧ job2.location = "Remote"
    ∧ job2 ∈ computeFiltered DUMMY_JOBS INITIAL_CRITERIA "" false
    ∧ job2 ∉ computeFiltered DUMMY_JOBS INITIAL_CRITERIA "" true := by decide

/-- C3 counterexample: the claim asserts that of two rapid swipes only the most
recent call's phase-2 timer fires the advance, so the cursor advances once.
In the code no timer is ever cancelled: two swipes issued before any phase 2
runs schedule two timers, both fire, and from index 0 over the four-element
initial deck the cursor ends at 2, not at `(0 + 1) % 4 = 1`. -/
theorem rapid_swipes_advance_twice :
    ((handleSwipe initialState Direction.left).bind (fun s1 =>
      (handleSwipe s1 Direction.left).map (fun s2 =>
        fireTimer (fireTimer s2)))).map (fun s => s.currentJobIndex) = some 2
    ∧ (2 : Nat) ≠ (initialState.currentJobIndex + 1) %
        initialState.filteredJobs.length := by decide

/-- C4 counterexample: the claim asserts `move(id, referenceId)` is a no-op
when `id` is absent from the sequence.  In the code an absent id makes
`findIndex` return `-1`, which `arrayMove` treats as the last position: moving
the absent id `nonexistent` next to `permanent` relocates the *last* criterion
(`internship`) to the front, so the sequence changes. -/
theorem dragEnd_absent_id_not_noop :
    dragEndCriteria INITIAL_CRITERIA "nonexistent" "permanent"
      ≠ INITIAL_CRITERIA := by decide

/-- C7: `swipe` on an empty filtered sequence returns the state unchanged — in
particular the saved set, index, transition marker and timer queue are
untouched and no phase-2 callback is scheduled — and `current()` on an empty
sequence is an explicit no-item result. -/
theorem swipe_empty_noop (s : AppState) (d : Direction)
    (h : s.filteredJobs = []) :
    handleSwipe s d = some s ∧ currentJob s = none := by
  constructor
  · unfold handleSwipe
    rw [h]
    rfl
  · unfold currentJob
    rw [h]
    simp

theorem swipe_empty_noop_witness :
    (setRemoteOnlyOp initialState true).filteredJobs = []
    ∧ handleSwipe (setRemoteOnlyOp initialState true) Direction.right
        = some (setRemoteOnlyOp initialState true)
    ∧ currentJob (setRemoteOnlyOp initialState true) = none :=
  ⟨by decide,
    swipe_empty_noop (setRemoteOnlyOp initialState true) Direction.right (by decide)⟩

/-- C10: `removeSaved` modifies only the saved set: for every state and every
identifier, present or absent, the filtered sequence, current index,
transition marker, criteria list, search term, preference flag and pending
timer queue are all unchanged. -/
theorem removeSaved_frame (s : AppState) (id : Nat) :
    (handleRemoveSaved s id).filteredJobs = s.filteredJobs
    ∧ (handleRemoveSaved s id).currentJobIndex = s.currentJobIndex
    ∧ (handleRemoveSaved s id).animation = s.animation
    ∧ (handleRemoveSaved s id).criteria = s.criteria
    ∧ (handleRemoveSaved s id).searchTerm = s.searchTerm
    ∧ (handleRemoveSaved s id).remoteOnly = s.remoteOnly
    ∧ (handleRemoveSaved s id).pendingTimers = s.pendingTimers :=
  ⟨rfl, rfl, rfl, rfl, rfl, rfl, rfl⟩

/-- C5: a listing passes the type filter iff its employment-kind label,
compared case-insensitively, belongs to the active-criteria label set; and
with no active criterion the filtered sequence is empty whatever the search
term and the remote-only preference. -/
theorem type_filter_membership :
    (∀ (criteria : List SearchCriteria) (job : Job),
      matchesType (activeCriteriaTypes criteria) job = true
        ↔ ∃ c ∈ criteria, c.active = true
            ∧ toLowerCase c.label = toLowerCase job.type)
    ∧ (∀ (jobs : List Job) (criteria : List SearchCriteria)
        (st : String) (r : Bool),
        (∀ c ∈ criteria, c.active = false) →
          computeFiltered jobs criteria st r = []) := by
  constructor
  · intro criteria job
    simp [matchesType, activeCriteriaTypes, List.mem_filter, List.mem_map]
    constructor
    · rintro ⟨c, ⟨hc, ha⟩, he⟩
      exact ⟨c, hc, ha, he⟩
    · rintro ⟨c, hc, ha, he⟩
      exact ⟨c, ⟨hc, ha⟩, he⟩
  · intro jobs criteria st r h
    have hempty : criteria.filter (fun c => c.active) = [] := by
      rw [List.filter_eq_nil_iff]
      intro c hc
      simp [h c hc]
    apply List.filter_eq_nil_iff.mpr
    intro job hj
    simp [matchesType, activeCriteriaTypes, hempty]

theorem type_filter_membership_witness :
    (matchesType (activeCriteriaTypes INITIAL_CRITERIA) job1 = true
      ↔ ∃ c ∈ INITIAL_CRITERIA, c.active = true
          ∧ toLowerCase c.label = toLowerCase job1.type)
    ∧ (∀ c ∈ [({ id := "permanent", label := "Permanent", active := false }
          : SearchCriteria)], c.active = false)
    ∧ computeFiltered DUMMY_JOBS
        [{ id := "permanent", label := "Permanent", active := false }] "" false
      = [] :=
  ⟨type_filter_membership.1 INITIAL_CRITERIA job1,
   by decide,
   type_filter_membership.2 DUMMY_JOBS _ "" false (by decide)⟩

/-- C8: saving is idempotent.  A right swipe whose current listing is already
in the saved set leaves the set unchanged; in any case the set afterwards
holds exactly one entry for that identifier (given the set-representation
invariant that it held at most one before), and re-adding that identifier is
the identity, so any number of accept-swipes on the same listing leave exactly
one entry. -/
theorem save_idempotent (s : AppState) (j : Job)
    (hc : currentJob s = some j) (hcount : s.savedJobs.count j.id ≤ 1) :
    ∃ s', handleSwipe s Direction.right = some s'
      ∧ s'.savedJobs = setAdd s.savedJobs j.id
      ∧ s'.savedJobs.count j.id = 1
      ∧ (j.id ∈ s.savedJobs → s'.savedJobs = s.savedJobs)
      ∧ setAdd s'.savedJobs j.id = s'.savedJobs := by
  have hj : s.filteredJobs[s.currentJobIndex]? = some j := hc
  have hlt : s.currentJobIndex < s.filteredJobs.length :=
    (List.getElem?_eq_some.mp hj).1
  have hne : ¬ s.filteredJobs.length = 0 := by omega
  refine ⟨{ s with
      animation := some Animation.swipeRight
      savedJobs := setAdd s.savedJobs j.id
      pendingTimers := s.pendingTimers ++ [s.filteredJobs] }, ?_, rfl, ?_, ?_, ?_⟩
  · unfold handleSwipe
    rw [if_neg hne]
    simp only [hj]
  · exact setAdd_count s.savedJobs j.id hcount
  · intro hmem
    simp [setAdd_eq_of_mem s.savedJobs j.id hmem]
  · exact setAdd_idem s.savedJobs j.id

theorem save_idempotent_witness :
    currentJob { initialState with savedJobs := [1] } = some job1
    ∧ ({ initialState with savedJobs := [1] } : AppState).savedJobs.count
        job1.id ≤ 1
    ∧ ∃ s', handleSwipe { initialState with savedJobs := [1] } Direction.right
        = some s'
      ∧ s'.savedJobs = setAdd [1] job1.id
      ∧ s'.savedJobs.count job1.id = 1
      ∧ (job1.id ∈ ({ initialState with savedJobs := [1] } : AppState).savedJobs
          → s'.savedJobs = [1])
      ∧ setAdd s'.savedJobs job1.id = s'.savedJobs :=
  ⟨by decide, by decide,
   save_idempotent { initialState with savedJobs := [1] } job1 (by decide)
     (by decide)⟩

/-- C6: on a state whose filtered sequence is non-empty (index in bounds, no
other timer pending), a right swipe adds the current item's identifier to the
saved set synchronously — in the state returned by the call itself, before its
settle timer has fired and with the cursor still in place — and once the
timer fires the cursor has advanced by one modulo the sequence length and the
transition marker is back to none. -/
theorem swipe_right_saves_then_advances (s : AppState)
    (hT : s.pendingTimers = [])
    (hI : s.currentJobIndex < s.filteredJobs.length) :
    ∃ j s', currentJob s = some j
      ∧ handleSwipe s Direction.right = some s'
      ∧ j.id ∈ s'.savedJobs
      ∧ s'.currentJobIndex = s.currentJobIndex
      ∧ (fireTimer s').currentJobIndex
          = (s.currentJobIndex + 1) % s.filteredJobs.length
      ∧ (fireTimer s').animation = none
      ∧ (fireTimer s').pendingTimers = [] := by
  obtain ⟨s', heq, hidx, hfj, hpt, hanim, _, _, _, _, hsave⟩ :=
    handleSwipe_spec s Direction.right hI
  have hcur : currentJob s = some s.filteredJobs[s.currentJobIndex] :=
    List.getElem?_eq_getElem hI
  have hcons : s'.pendingTimers = s.filteredJobs :: [] := by
    rw [hpt, hT]; rfl
  have hfire := fireTimer_cons s' s.filteredJobs [] hcons
  refine ⟨s.filteredJobs[s.currentJobIndex], s', hcur, heq,
    hsave rfl _ hcur, hidx, ?_, ?_, ?_⟩
  · rw [hfire]
    simp [hidx]
  · rw [hfire]
  · rw [hfire]

theorem swipe_right_saves_then_advances_witness :
    initialState.pendingTimers = []
    ∧ initialState.currentJobIndex < initialState.filteredJobs.length
    ∧ ∃ j s', currentJob initialState = some j
      ∧ handleSwipe initialState Direction.right = some s'
      ∧ j.id ∈ s'.savedJobs
      ∧ s'.currentJobIndex = initialState.currentJobIndex
      ∧ (fireTimer s').currentJobIndex
          = (initialState.currentJobIndex + 1) % initialState.filteredJobs.length
      ∧ (fireTimer s').animation = none
      ∧ (fireTimer s').pendingTimers = [] :=
  ⟨rfl, by decide,
    swipe_right_saves_then_advances initialState rfl (by decide)⟩

/-- One committed swipe (gesture plus its timer) advances the cursor by one
modulo the length of the unchanged filtered sequence and returns to idle. -/
theorem commitSwipe_spec (d : Direction) (s : AppState)
    (hT : s.pendingTimers = [])
    (hI : s.currentJobIndex < s.filteredJobs.length) :
    ∃ s', commitSwipe d s = some s'
      ∧ s'.currentJobIndex = (s.currentJobIndex + 1) % s.filteredJobs.length
      ∧ s'.filteredJobs = s.filteredJobs
      ∧ s'.pendingTimers = []
      ∧ s'.animation = none := by
  obtain ⟨s1, heq, hidx, hfj, hpt, _, _, _, _, _, _⟩ := handleSwipe_spec s d hI
  have hcons : s1.pendingTimers = s.filteredJobs :: [] := by
    rw [hpt, hT]; rfl
  have hfire := fireTimer_cons s1 s.filteredJobs [] hcons
  refine ⟨fireTimer s1, by simp [commitSwipe, heq], ?_, ?_, ?_, ?_⟩
  · rw [hfire]
    simp [hidx]
  · rw [hfire]
    simpa using hfj
  · rw [hfire]
  · rw [hfire]

/-- Iterating committed swipes adds the number of swipes to the cursor, modulo
the unchanged sequence length. -/
theorem commitSwipes_spec (d : Direction) :
    ∀ (k : Nat) (s : AppState), s.pendingTimers = [] →
      s.currentJobIndex < s.filteredJobs.length →
      ∃ s', commitSwipes d k s = some s'
        ∧ s'.currentJobIndex
            = (s.currentJobIndex + k) % s.filteredJobs.length
        ∧ s'.filteredJobs = s.filteredJobs
        ∧ s'.pendingTimers = [] := by
  intro k
  induction k with
  | zero =>
    intro s hT hI
    exact ⟨s, rfl, by simpa using (Nat.mod_eq_of_lt hI).symm, rfl, hT⟩
  | succ n ih =>
    intro s hT hI
    obtain ⟨s1, heq, hidx, hfj, hpt, _⟩ := commitSwipe_spec d s hT hI
    have hN : 0 < s.filteredJobs.length := by omega
    have hI1 : s1.currentJobIndex < s1.filteredJobs.length := by
      rw [hidx, hfj]
      exact Nat.mod_lt _ hN
    obtain ⟨s2, heq2, hidx2, hfj2, hpt2⟩ := ih s1 hpt hI1
    refine ⟨s2, ?_, ?_, by rw [hfj2, hfj], hpt2⟩
    · show (commitSwipe d s).bind (commitSwipes d n) = some s2
      rw [heq]
      exact heq2
    · rw [hidx2, hidx, hfj, Nat.mod_add_mod]
      congr 1
      omega

/-- C9: the deck is circular.  With a fixed non-empty filtered sequence of
length N, each committed swipe (of either direction) sets the cursor to
`(index + 1) % N` — established by `commitSwipe_spec` — and N consecutive
committed swipes return the cursor to its original index, the sequence itself
unchanged throughout. -/
theorem deck_wraparound (s : AppState) (d : Direction)
    (hT : s.pendingTimers = [])
    (hI : s.currentJobIndex < s.filteredJobs.length) :
    ∃ s', commitSwipes d s.filteredJobs.length s = some s'
      ∧ s'.currentJobIndex = s.currentJobIndex
      ∧ s'.filteredJobs = s.filteredJobs := by
  obtain ⟨s', heq, hidx, hfj, _⟩ :=
    commitSwipes_spec d s.filteredJobs.length s hT hI
  refine ⟨s', heq, ?_, hfj⟩
  rw [hidx, Nat.add_mod_right, Nat.mod_eq_of_lt hI]

theorem deck_wraparound_witness :
    initialState.pendingTimers = []
    ∧ initialState.currentJobIndex < initialState.filteredJobs.length
    ∧ ∃ s', commitSwipes Direction.left initialState.filteredJobs.length
          initialState = some s'
      ∧ s'.currentJobIndex = initialState.currentJobIndex
      ∧ s'.filteredJobs = initialState.filteredJobs :=
  ⟨rfl, by decide, deck_wraparound initialState Direction.left rfl (by decide)⟩

/-- C3 amended: rapid swipes are not coalesced.  Two swipe calls issued before
any phase 2 has run each apply their phase-1 effects synchronously (their
transition markers, and a right swipe's save) and each enqueue their own
phase-2 timer, in issue order; both timers fire, so the cursor advances once
per call — two positions in total, against the sequence captured at swipe
time — and after the last timer the transition marker is none and the queue
is empty. -/
theorem swipe_phase2_once_per_call (s : AppState) (d1 d2 : Direction)
    (hT : s.pendingTimers = [])
    (hI : s.currentJobIndex < s.filteredJobs.length) :
    ∃ s1 s2, handleSwipe s d1 = some s1
      ∧ handleSwipe s1 d2 = some s2
      ∧ s1.animation = some (animationFor d1)
      ∧ s2.animation = some (animationFor d2)
      ∧ (d1 = Direction.right → ∀ j, currentJob s = some j →
          j.id ∈ s2.savedJobs)
      ∧ s2.pendingTimers = [s.filteredJobs, s.filteredJobs]
      ∧ s2.currentJobIndex = s.currentJobIndex
      ∧ (fireTimer (fireTimer s2)).currentJobIndex
          = (s.currentJobIndex + 2) % s.filteredJobs.length
      ∧ (fireTimer (fireTimer s2)).animation = none
      ∧ (fireTimer (fireTimer s2)).pendingTimers = [] := by
  obtain ⟨s1, heq1, hidx1, hfj1, hpt1, hanim1, _, _, _, hmono1, hsave1⟩ :=
    handleSwipe_spec s d1 hI
  have hI1 : s1.currentJobIndex < s1.filteredJobs.length := by
    rw [hidx1, hfj1]; exact hI
  obtain ⟨s2, heq2, hidx2, hfj2, hpt2, hanim2, _, _, _, hmono2, _⟩ :=
    handleSwipe_spec s1 d2 hI1
  have hptF : s2.pendingTimers = [s.filteredJobs, s.filteredJobs] := by
    rw [hpt2, hpt1, hT, hfj1]
    rfl
  have hfire1 := fireTimer_cons s2 s.filteredJobs [s.filteredJobs] hptF
  refine ⟨s1, s2, heq1, heq2, hanim1, hanim2, ?_, hptF, by rw [hidx2, hidx1],
    ?_, ?_, ?_⟩
  · intro hd j hj
    exact hmono2 _ (hsave1 hd j hj)
  · rw [hfire1]
    rw [fireTimer_cons _ s.filteredJobs [] rfl]
    simp only [hidx2, hidx1]
    rw [Nat.mod_add_mod]
  · rw [hfire1, fireTimer_cons _ s.filteredJobs [] rfl]
  · rw [hfire1, fireTimer_cons _ s.filteredJobs [] rfl]

theorem swipe_phase2_once_per_call_witness :
    initialState.pendingTimers = []
    ∧ initialState.currentJobIndex < initialState.filteredJobs.length
    ∧ ∃ s1 s2, handleSwipe initialState Direction.right = some s1
      ∧ handleSwipe s1 Direction.right = some s2
      ∧ s1.animation = some (animationFor Direction.right)
      ∧ s2.animation = some (animationFor Direction.right)
      ∧ (Direction.right = Direction.right → ∀ j,
          currentJob initialState = some j → j.id ∈ s2.savedJobs)
      ∧ s2.pendingTimers = [initialState.filteredJobs, initialState.filteredJobs]
      ∧ s2.currentJobIndex = initialState.currentJobIndex
      ∧ (fireTimer (fireTimer s2)).currentJobIndex
          = (initialState.currentJobIndex + 2) % initialState.filteredJobs.length
      ∧ (fireTimer (fireTimer s2)).animation = none
      ∧ (fireTimer (fireTimer s2)).pendingTimers = [] :=
  ⟨rfl, by decide,
    swipe_phase2_once_per_call initialState Direction.right Direction.right rfl
      (by decide)⟩

/-! ## Reordering (claim C4) support -/

theorem getElem?_append_cons (P : List α) (x : α) (M : List α) :
    (P ++ x :: M)[P.length]? = some x := by
  rw [List.getElem?_append_right (Nat.le_refl _)]
  simp

/-- `arrayMove` moving an element forward, computed on the decomposed list:
the element `x` at position `|A|` lands immediately after the element `y` at
position `|A| + |B| + 1`. -/
theorem arrayMove_fwd (A : List α) (x : α) (B : List α) (y : α) (C : List α) :
    arrayMove (A ++ (x :: (B ++ (y :: C)))) (A.length : Int)
      ((A.length + B.length + 1 : Nat) : Int)
    = A ++ (B ++ (y :: (x :: C))) := by
  unfold arrayMove
  simp only [Int.toNat_natCast]
  rw [if_neg (by omega)]
  rw [min_eq_left (by rw [List.length_append]; omega)]
  rw [getElem?_append_cons A x (B ++ (y :: C))]
  have hrest : (A ++ (x :: (B ++ (y :: C)))).take A.length ++
      (A ++ (x :: (B ++ (y :: C)))).drop (A.length + 1)
      = (A ++ B) ++ (y :: C) := by
    rw [List.drop_append 1, List.take_left]
    simp [List.append_assoc]
  simp only [hrest]
  rw [show A.length + B.length + 1 = (A ++ B).length + 1 from by
    rw [List.length_append]]
  rw [if_neg (by omega)]
  rw [List.take_append 1, List.drop_append 1]
  simp [List.append_assoc]

/-- `arrayMove` moving an element backward: the element `x` at position
`|A| + |B| + 1` lands immediately before the element `y` at position `|A|`. -/
theorem arrayMove_bwd (A : List α) (y : α) (B : List α) (x : α) (C : List α) :
    arrayMove (A ++ (y :: (B ++ (x :: C))))
      ((A.length + B.length + 1 : Nat) : Int) (A.length : Int)
    = A ++ (x :: (y :: (B ++ C))) := by
  unfold arrayMove
  simp only [Int.toNat_natCast]
  rw [if_neg (by omega)]
  rw [if_neg (by omega)]
  rw [min_eq_left (by simp [List.length_append]; omega)]
  rw [show A.length + B.length + 1 = (A ++ (y :: B)).length from by
    simp [List.length_append]; omega]
  rw [show A ++ (y :: (B ++ (x :: C))) = (A ++ (y :: B)) ++ (x :: C) from by
    simp [List.append_assoc]]
  rw [getElem?_append_cons (A ++ (y :: B)) x C]
  have hrest : ((A ++ (y :: B)) ++ (x :: C)).take (A ++ (y :: B)).length ++
      ((A ++ (y :: B)) ++ (x :: C)).drop ((A ++ (y :: B)).length + 1)
      = A ++ ((y :: B) ++ C) := by
    rw [List.drop_append 1, List.take_left]
    simp [List.append_assoc]
  simp only [hrest]
  rw [List.take_left, List.drop_left]
  simp

theorem findIdxOpt_append_cons (p : α → Bool) (P : List α) (x : α) (D : List α)
    (hP : ∀ c ∈ P, p c = false) (hx : p x = true) :
    findIdxOpt p (P ++ (x :: D)) = some P.length := by
  induction P with
  | nil => simp [findIdxOpt, hx]
  | cons c cs ih =>
    have hc : p c = false := hP c (by simp)
    have ih' := ih (fun d hd => hP d (by simp [hd]))
    simp [findIdxOpt, hc, ih']

theorem map_nodup_split (f : α → β) (P : List α) (z : α) (D : List α)
    (h : ((P ++ (z :: D)).map f).Nodup) :
    (∀ c ∈ P, f c ≠ f z) ∧ (∀ c ∈ D, f c ≠ f z) := by
  rw [List.map_append, List.nodup_append] at h
  obtain ⟨h1, h2, h3⟩ := h
  refine ⟨?_, ?_⟩
  · intro c hc heq
    have hfz : f z ∈ (z :: D).map f := by simp
    exact h3 (List.mem_map_of_mem f hc) (heq ▸ hfz)
  · intro c hc heq
    have h4 : (∀ x ∈ D, ¬ f x = f z) ∧ (D.map f).Nodup := by
      simpa [List.map_cons, List.nodup_cons] using h2
    exact h4.1 c hc heq

theorem perm_shift_fwd (B : List α) (x y : α) (C : List α) :
    (B ++ (y :: (x :: C))).Perm (x :: (B ++ (y :: C))) := by
  have h : ((B ++ [y]) ++ (x :: C)).Perm (x :: ((B ++ [y]) ++ C)) :=
    List.perm_middle
  simpa [List.append_assoc] using h

theorem perm_shift_bwd (B : List α) (x y : α) (C : List α) :
    (x :: (y :: (B ++ C))).Perm (y :: (B ++ (x :: C))) := by
  have h : (x :: (B ++ C)).Perm (B ++ (x :: C)) := List.perm_middle.symm
  exact ((List.Perm.swap y x (B ++ C)).trans (h.cons y)).symm.symm

/-- Any list containing one criterion with id `a` and one with id `b` splits
around those two criteria, in one of the two orders. -/
theorem criteria_split (l : List SearchCriteria) (a b : String)
    (ha : ∃ c ∈ l, c.id = a) (hb : ∃ c ∈ l, c.id = b) (hab : a ≠ b) :
    ∃ A ca B cb C, ca.id = a ∧ cb.id = b ∧
      (l = A ++ (ca :: (B ++ (cb :: C))) ∨ l = A ++ (cb :: (B ++ (ca :: C)))) := by
  induction l with
  | nil => simp at ha
  | cons c rest ih =>
    by_cases hca : c.id = a
    · obtain ⟨cb, hcb, hcbid⟩ := hb
      have hcbrest : cb ∈ rest := by
        rcases List.mem_cons.mp hcb with h1 | h1
        · exact absurd (h1 ▸ hcbid) (hca ▸ hab)
        · exact h1
      obtain ⟨B, C, hBC⟩ := List.append_of_mem hcbrest
      exact ⟨[], c, B, cb, C, hca, hcbid, Or.inl (by simp [hBC])⟩
    · by_cases hcb : c.id = b
      · obtain ⟨ca, hcam, hcaid⟩ := ha
        have hcarest : ca ∈ rest := by
          rcases List.mem_cons.mp hcam with h1 | h1
          · exact absurd (h1 ▸ hcaid) hca
          · exact h1
        obtain ⟨B, C, hBC⟩ := List.append_of_mem hcarest
        exact ⟨[], ca, B, c, C, hcaid, hcb, Or.inr (by simp [hBC])⟩
      · have ha' : ∃ d ∈ rest, d.id = a := by
          obtain ⟨ca, hcam, hcaid⟩ := ha
          rcases List.mem_cons.mp hcam with h1 | h1
          · exact absurd (h1 ▸ hcaid) hca
          · exact ⟨ca, h1, hcaid⟩
        have hb' : ∃ d ∈ rest, d.id = b := by
          obtain ⟨cb, hcbm, hcbid⟩ := hb
          rcases List.mem_cons.mp hcbm with h1 | h1
          · exact absurd (h1 ▸ hcbid) hcb
          · exact ⟨cb, h1, hcbid⟩
        obtain ⟨A, ca, B, cb, C, h1, h2, h3⟩ := ih ha' hb'
        refine ⟨c :: A, ca, B, cb, C, h1, h2, ?_⟩
        rcases h3 with h3 | h3
        · exact Or.inl (by simp [h3])
        · exact Or.inr (by simp [h3])

/-- C4 amended: on a criteria sequence with pairwise-distinct identifiers,
`move(id, referenceId)` with both identifiers present is a no-op when the two
identifiers coincide and otherwise relocates the criterion with `id` to a
position immediately adjacent to the one with `referenceId`; the result is a
permutation of the input (so the length, the identifier set, and every
criterion — its active flag included — are preserved), and deleting the moved
criterion from both sequences leaves identical lists, i.e. every other
relative order is preserved.  (The clause of the original claim making the
operation a no-op on an *absent* identifier is refuted by
`dragEnd_absent_id_not_noop`: `findIndex` yields `-1`, which `arrayMove`
treats as the last position.) -/
theorem dragEnd_move_contract (l : List SearchCriteria) (a b : String)
    (hnd : (l.map (fun c => c.id)).Nodup)
    (ha : ∃ c ∈ l, c.id = a) (hb : ∃ c ∈ l, c.id = b) :
    (a = b → dragEndCriteria l a b = l)
    ∧ (dragEndCriteria l a b).Perm l
    ∧ (dragEndCriteria l a b).length = l.length
    ∧ (∀ c, c ∈ dragEndCriteria l a b ↔ c ∈ l)
    ∧ (dragEndCriteria l a b).filter (fun c => c.id != a)
        = l.filter (fun c => c.id != a)
    ∧ (a ≠ b → ∃ pre c₁ c₂ post, c₁.id = a ∧ c₂.id = b ∧
        (dragEndCriteria l a b = pre ++ (c₁ :: (c₂ :: post))
          ∨ dragEndCriteria l a b = pre ++ (c₂ :: (c₁ :: post)))) := by
  by_cases hab : a = b
  · have hres : dragEndCriteria l a b = l := by
      unfold dragEndCriteria
      rw [if_neg (by simp [hab])]
    rw [hres]
    exact ⟨fun _ => rfl, List.Perm.refl l, rfl, fun c => Iff.rfl, rfl,
      fun h => absurd hab h⟩
  · obtain ⟨A, ca, B, cb, C, hcaid, hcbid, hshape⟩ :=
      criteria_split l a b ha hb hab
    rcases hshape with hshape | hshape
    · subst hshape
      obtain ⟨hA_a, hD_a⟩ :=
        map_nodup_split (fun c => c.id) A ca (B ++ (cb :: C)) hnd
      have hnd2 : (((A ++ (ca :: B)) ++ (cb :: C)).map
          (fun c => c.id)).Nodup := by
        rw [show (A ++ (ca :: B)) ++ (cb :: C) = A ++ (ca :: (B ++ (cb :: C)))
          from by simp [List.append_assoc]]
        exact hnd
      obtain ⟨hP_b, _⟩ :=
        map_nodup_split (fun c => c.id) (A ++ (ca :: B)) cb C hnd2
      have hfa : jsFindIndex (fun c => c.id == a)
          (A ++ (ca :: (B ++ (cb :: C)))) = (A.length : Int) := by
        unfold jsFindIndex
        rw [findIdxOpt_append_cons _ A ca _
          (fun c hc => beq_eq_false_iff_ne.mpr (hcaid ▸ hA_a c hc))
          (by simp [hcaid])]
      have hfb : jsFindIndex (fun c => c.id == b)
          (A ++ (ca :: (B ++ (cb :: C))))
          = ((A.length + B.length + 1 : Nat) : Int) := by
        unfold jsFindIndex
        rw [show A ++ (ca :: (B ++ (cb :: C))) = (A ++ (ca :: B)) ++ (cb :: C)
          from by simp [List.append_assoc]]
        rw [findIdxOpt_append_cons _ (A ++ (ca :: B)) cb C
          (fun c hc => beq_eq_false_iff_ne.mpr (hcbid ▸ hP_b c hc))
          (by simp [hcbid])]
        simp [List.length_append]
        omega
      have hres : dragEndCriteria (A ++ (ca :: (B ++ (cb :: C)))) a b
          = A ++ (B ++ (cb :: (ca :: C))) := by
        unfold dragEndCriteria
        rw [if_pos hab, hfa, hfb]
        exact arrayMove_fwd A ca B cb C
      have hperm : (dragEndCriteria (A ++ (ca :: (B ++ (cb :: C)))) a b).Perm
          (A ++ (ca :: (B ++ (cb :: C)))) := by
        rw [hres]
        exact List.Perm.append_left A (perm_shift_fwd B ca cb C)
      refine ⟨fun h => absurd h hab, hperm, hperm.length_eq,
        fun c => hperm.mem_iff, ?_, ?_⟩
      · rw [hres]
        have hca' : (ca.id != a) = false := by simp [hcaid]
        have hcb' : (cb.id != a) = true := by
          simp [hcbid]
          exact fun h => hab h.symm
        simp [List.filter_append, List.filter_cons, hca', hcb']
      · intro _
        refine ⟨A ++ B, ca, cb, C, hcaid, hcbid, Or.inr ?_⟩
        rw [hres]
        simp [List.append_assoc]
    · subst hshape
      obtain ⟨hA_b, hD_b⟩ :=
        map_nodup_split (fun c => c.id) A cb (B ++ (ca :: C)) hnd
      have hnd2 : (((A ++ (cb :: B)) ++ (ca :: C)).map
          (fun c => c.id)).Nodup := by
        rw [show (A ++ (cb :: B)) ++ (ca :: C) = A ++ (cb :: (B ++ (ca :: C)))
          from by simp [List.append_assoc]]
        exact hnd
      obtain ⟨hP_a, _⟩ :=
        map_nodup_split (fun c => c.id) (A ++ (cb :: B)) ca C hnd2
      have hfa : jsFindIndex (fun c => c.id == a)
          (A ++ (cb :: (B ++ (ca :: C))))
          = ((A.length + B.length + 1 : Nat) : Int) := by
        unfold jsFindIndex
        rw [show A ++ (cb :: (B ++ (ca :: C))) = (A ++ (cb :: B)) ++ (ca :: C)
          from by simp [List.append_assoc]]
        rw [findIdxOpt_append_cons _ (A ++ (cb :: B)) ca C
          (fun c hc => beq_eq_false_iff_ne.mpr (hcaid ▸ hP_a c hc))
          (by simp [hcaid])]
        simp [List.length_append]
        omega
      have hfb : jsFindIndex (fun c => c.id == b)
          (A ++ (cb :: (B ++ (ca :: C)))) = (A.length : Int) := by
        unfold jsFindIndex
        rw [findIdxOpt_append_cons _ A cb _
          (fun c hc => beq_eq_false_iff_ne.mpr (hcbid ▸ hA_b c hc))
          (by simp [hcbid])]
      have hres : dragEndCriteria (A ++ (cb :: (B ++ (ca :: C)))) a b
          = A ++ (ca :: (cb :: (B ++ C))) := by
        unfold dragEndCriteria
        rw [if_pos hab, hfa, hfb]
        exact arrayMove_bwd A cb B ca C
      have hperm : (dragEndCriteria (A ++ (cb :: (B ++ (ca :: C)))) a b).Perm
          (A ++ (cb :: (B ++ (ca :: C)))) := by
        rw [hres]
        exact List.Perm.append_left A (perm_shift_bwd B ca cb C)
      refine ⟨fun h => absurd h hab, hperm, hperm.length_eq,
        fun c => hperm.mem_iff, ?_, ?_⟩
      · rw [hres]
        have hca' : (ca.id != a) = false := by simp [hcaid]
        have hcb' : (cb.id != a) = true := by
          simp [hcbid]
          exact fun h => hab h.symm
        simp [List.filter_append, List.filter_cons, hca', hcb']
      · intro _
        refine ⟨A, ca, cb, B ++ C, hcaid, hcbid, Or.inl ?_⟩
        rw [hres]

theorem dragEnd_move_contract_witness :
    (INITIAL_CRITERIA.map (fun c => c.id)).Nodup
    ∧ (∃ c ∈ INITIAL_CRITERIA, c.id = "fixed-term")
    ∧ (∃ c ∈ INITIAL_CRITERIA, c.id = "internship")
    ∧ (("fixed-term" : String) = "internship" →
        dragEndCriteria INITIAL_CRITERIA "fixed-term" "internship"
          = INITIAL_CRITERIA)
    ∧ (dragEndCriteria INITIAL_CRITERIA "fixed-term" "internship").Perm
        INITIAL_CRITERIA
    ∧ (dragEndCriteria INITIAL_CRITERIA "fixed-term" "internship").length
        = INITIAL_CRITERIA.length
    ∧ (∀ c, c ∈ dragEndCriteria INITIAL_CRITERIA "fixed-term" "internship"
        ↔ c ∈ INITIAL_CRITERIA)
    ∧ (dragEndCriteria INITIAL_CRITERIA "fixed-term" "internship").filter
          (fun c => c.id != "fixed-term")
        = INITIAL_CRITERIA.filter (fun c => c.id != "fixed-term")
    ∧ (("fixed-term" : String) ≠ "internship" → ∃ pre c₁ c₂ post,
        c₁.id = "fixed-term" ∧ c₂.id = "internship" ∧
        (dragEndCriteria INITIAL_CRITERIA "fixed-term" "internship"
            = pre ++ (c₁ :: (c₂ :: post))
          ∨ dragEndCriteria INITIAL_CRITERIA "fixed-term" "internship"
            = pre ++ (c₂ :: (c₁ :: post)))) :=
  ⟨by decide, by decide, by decide,
    dragEnd_move_contract INITIAL_CRITERIA "fixed-term" "internship"
      (by decide) (by decide) (by decide)⟩
